import Mathlib

/-!
Verification of the secp256k1 key-management and signing core (`PrivateKey` class).

The TypeScript source stores an ethers `Wallet` and wraps four external crypto
primitives: keccak-256, the canonical deterministic (RFC 6979, low-s) ECDSA signer
over secp256k1 (used both by ethers `SigningKey.signDigest` and by libsecp256k1
`ecdsaSign`), EIP-712 typed-data signing, and address derivation.  Those external
primitives are kept abstract (function parameters) or modelled from the spec at
their interface boundary; the repository's own wrapping code — hex prefix
normalization, hex encode/decode, 32-byte left padding, r‖s concatenation, error
branching — is translated faithfully.

Bytes are `List Nat` (each element < 256 where well-formedness matters); hex
strings are `List Char`.
-/

/-- Byte strings: lists of naturals, each < 256 when well-formed. -/
abbrev Bytes := List Nat

/-- Well-formed byte string: every element is an actual byte. -/
def BytesWF (bs : Bytes) : Prop := ∀ b ∈ bs, b < 256

instance decBytesWF (bs : Bytes) : Decidable (BytesWF bs) :=
  inferInstanceAs (Decidable (∀ b ∈ bs, b < 256))

/-- The order of the secp256k1 group (the valid private scalars are 1..order-1). -/
def secp256k1Order : Nat :=
  0xfffffffffffffffffffffffffffffffebaaedce6af48a03bbfd25e8cd0364141

/-- Value of a big-endian byte string. -/
def natOfBytes (bs : Bytes) : Nat := bs.foldl (fun acc b => acc * 256 + b) 0

/-- Big-endian serialization of `x` into exactly `n` bytes (left zero-padded,
truncating above `256 ^ n`); `bePad 32` is the 32-byte serialization used by the
compact 64-byte ECDSA signature layout. -/
def bePad : Nat → Nat → Bytes
  | 0, _ => []
  | n + 1, x => bePad n (x / 256) ++ [x % 256]

/-- Minimal big-endian serialization of a value below `256 ^ 32`, as produced by
ethers `hexlify` on a big number: the 32-byte form with leading zero bytes
stripped, and `[0]` for zero. -/
def beBytesMin (x : Nat) : Bytes :=
  if (bePad 32 x).dropWhile (fun b => b == 0) = [] then [0]
  else (bePad 32 x).dropWhile (fun b => b == 0)

/-- Numeric value of one hex character (case-insensitive), `none` for non-hex. -/
def hexVal (c : Char) : Option Nat :=
  if '0' ≤ c && c ≤ '9' then some (c.toNat - 48)
  else if 'a' ≤ c && c ≤ 'f' then some (c.toNat - 87)
  else if 'A' ≤ c && c ≤ 'F' then some (c.toNat - 55)
  else none

/-- Lowercase hex character for a nibble value. -/
def hexDigit (n : Nat) : Char :=
  if n < 10 then Char.ofNat (48 + n) else Char.ofNat (87 + n)

/-- Lowercase hex encoding of one byte (two characters). -/
def hexEncodeByte (b : Nat) : List Char :=
  [hexDigit (b / 16 % 16), hexDigit (b % 16)]

/-- Lowercase hex encoding of a byte string (no prefix), as Node `toString('hex')`
and ethers `hexlify` produce. -/
def hexEncode (bs : Bytes) : List Char := (bs.map hexEncodeByte).flatten

/-- Modelled from Node's documented `Buffer.from(string, 'hex')` semantics:
characters are decoded pairwise, case-insensitively; decoding stops at the first
pair containing a non-hex character, and a trailing lone character is dropped.
Malformed input is silently truncated, never rejected. -/
def hexDecodeNode : List Char → Bytes
  | c1 :: c2 :: rest =>
    match hexVal c1, hexVal c2 with
    | some h, some l => (16 * h + l) :: hexDecodeNode rest
    | _, _ => []
  | _ => []

/-- JS `s.startsWith('0x')` (case-sensitive, as in the source). -/
def startsWith0x : List Char → Bool
  | c1 :: c2 :: _ => c1 == '0' && c2 == 'x'
  | _ => false

/-- The `privateKey.startsWith('0x') ? privateKey.slice(2) : privateKey`
normalization that the source repeats before every hex decode. -/
def strip0x (s : List Char) : List Char := if startsWith0x s then s.drop 2 else s

/-- JS `s.replace('0x', '')`: removes the first occurrence of the substring
`0x` anywhere in the string (only the first). -/
def stringReplaceFirst0x : List Char → List Char
  | '0' :: 'x' :: rest => rest
  | c :: rest => c :: stringReplaceFirst0x rest
  | [] => []

/-- Lowercase hex digit test. -/
def isLowerHexDigit (c : Char) : Bool :=
  ('0' ≤ c && c ≤ '9') || ('a' ≤ c && c ≤ 'f')

/-- Hex digit test, either case (EIP-55 checksummed addresses are mixed-case). -/
def isHexDigitAnyCase (c : Char) : Bool :=
  isLowerHexDigit c || ('A' ≤ c && c ≤ 'F')

/-- A `0x`-prefixed all-lowercase hex string. -/
def isLowerHexString (s : List Char) : Bool :=
  startsWith0x s && (s.drop 2).all isLowerHexDigit

/-- Error kinds of construction (spec §7). -/
inductive KeyError where
  | InvalidSecretLength
  | InvalidSecretValue
  | InvalidMnemonic
  deriving DecidableEq, Repr

/-- Modelled from the spec: the ethers `Wallet` state at the boundary this core
uses — `privateKey` is the secret as a `0x`-prefixed lowercase hex string (as
ethers stores it), `address` is the derived address string (ethers stores it
EIP-55 checksummed, i.e. possibly mixed-case hex after the `0x`). -/
structure Wallet where
  privateKey : List Char
  address : List Char
  deriving DecidableEq, Repr

/-- Modelled from the spec: `new Wallet(secretBytes)` — external ethers
constructor; fails with `InvalidSecretLength` unless the secret is exactly 32
bytes, with `InvalidSecretValue` unless its value is a valid scalar (nonzero and
below the curve order); otherwise stores the secret as `0x`-prefixed lowercase
hex together with the derived address (`addrOf`, the external derivation). -/
def Wallet.create (addrOf : Bytes → List Char) (bs : Bytes) : Except KeyError Wallet :=
  if bs.length ≠ 32 then .error .InvalidSecretLength
  else if natOfBytes bs = 0 ∨ secp256k1Order ≤ natOfBytes bs then .error .InvalidSecretValue
  else .ok ⟨'0' :: 'x' :: hexEncode bs, addrOf bs⟩

/-- The secret bytes the wallet's signing key holds: ethers builds the signing
key from `arrayify(wallet.privateKey)`. -/
def walletSecret (w : Wallet) : Bytes := hexDecodeNode (strip0x w.privateKey)

/-- Shape of an ethers `Signature` object: `r` and `s` as `0x` hex strings plus
the recovery information `v`. -/
structure EcSignature where
  r : List Char
  s : List Char
  v : Nat

/-- Modelled from the spec: ethers `SigningKey.signDigest` — canonical
deterministic ECDSA (RFC 6979 nonce, low-s) over secp256k1, the external curve
routine.  `ecdsaRS secret digest` gives the `(r, s)` pair and `recov` the
recovery parity; `r` and `s` are serialized as minimal-length `0x` hex. -/
def ethersSignDigest (ecdsaRS : Bytes → Bytes → Nat × Nat) (recov : Bytes → Bytes → Nat)
    (sk digest : Bytes) : EcSignature :=
  ⟨'0' :: 'x' :: hexEncode (beBytesMin (ecdsaRS sk digest).1),
   '0' :: 'x' :: hexEncode (beBytesMin (ecdsaRS sk digest).2),
   27 + recov sk digest⟩

/-- ethers `hexZeroPad(hexString, 32)`: left-pads the digits after `0x` with
`'0'` up to 64 hex characters (32 bytes). -/
def hexZeroPad32 (hs : List Char) : List Char :=
  match hs with
  | '0' :: 'x' :: body => '0' :: 'x' :: (List.replicate (64 - body.length) '0' ++ body)
  | other => other

/-- ethers `splitSignature`: re-normalizes the `r` and `s` components,
left-padding each to exactly 32 bytes. -/
def splitSignatureRS (sig : EcSignature) : List Char × List Char :=
  (hexZeroPad32 sig.r, hexZeroPad32 sig.s)

/-- ethers `arrayify` on a `0x` hex string: the decoded bytes. -/
def arrayifyHex (hs : List Char) : Bytes := hexDecodeNode (strip0x hs)

/-- Modelled from the spec: libsecp256k1 `secp256k1.ecdsaSign(msgHash, sk)` —
the same canonical deterministic ECDSA routine (RFC 6979, low-s), returning the
compact 64-byte signature: 32-byte big-endian `r` followed by 32-byte
big-endian `s`.  Both signing families use the same abstract `ecdsaRS` because
both are the canonical deterministic signer over the same digest and secret
(spec §4.3). -/
def secpEcdsaSign (ecdsaRS : Bytes → Bytes → Nat × Nat) (msgHash sk : Bytes) : Bytes :=
  bePad 32 (ecdsaRS sk msgHash).1 ++ bePad 32 (ecdsaRS sk msgHash).2

/-- Modelled from the spec: `@metamask/eth-sig-util` `signTypedData` (V4) — hashes
the structured EIP-712 payload and signs it deterministically, returning a `0x`
hex string that includes the trailing recovery byte: `r` (32 bytes) ‖ `s` (32
bytes) ‖ `v` (1 byte).  `typedRSV secret data` gives the `(r, s, v)` triple. -/
def libSignTypedData {α : Type} (typedRSV : Bytes → α → Nat × Nat × Nat)
    (sk : Bytes) (data : α) : List Char :=
  '0' :: 'x' :: hexEncode
    (bePad 32 (typedRSV sk data).1 ++ bePad 32 (typedRSV sk data).2.1 ++
      bePad 1 (typedRSV sk data).2.2)

/-- Modelled from the spec: the module-wide default BIP32 derivation path
constant (its value lives outside the given sources; the value here is a
placeholder, no claim depends on it). -/
def DEFAULT_DERIVATION_PATH : List Char := "m/44h/60h/0h/0/0".toList

/-- Modelled from the spec: ethers `Wallet.fromMnemonic` (external) — validates
the phrase against the BIP39 word list and checksum (`validBip39`); on failure
raises `InvalidMnemonic` without deriving anything; on success performs BIP32
derivation along the path (`deriveBip32`) and builds the wallet from the
resulting 32-byte scalar. -/
def Wallet.fromMnemonic (addrOf : Bytes → List Char) (validBip39 : List Char → Bool)
    (deriveBip32 : List Char → List Char → Bytes) (words path : List Char) :
    Except KeyError Wallet :=
  if validBip39 words then Wallet.create addrOf (deriveBip32 words path)
  else .error .InvalidMnemonic

/-- Function `PrivateKey.fromMnemonic(words, path = DEFAULT_DERIVATION_PATH)`: delegates
to `Wallet.fromMnemonic`, defaulting the path. -/
def PrivateKey.fromMnemonic (addrOf : Bytes → List Char) (validBip39 : List Char → Bool)
    (deriveBip32 : List Char → List Char → Bytes) (words : List Char)
    (path : Option (List Char)) : Except KeyError Wallet :=
  Wallet.fromMnemonic addrOf validBip39 deriveBip32 words
    (path.getD DEFAULT_DERIVATION_PATH)

/-- Function `PrivateKey.fromHex(privateKey)`: for a string input, strips a leading `0x`
and hex-decodes it with Node `Buffer.from(·, 'hex')`; raw byte input is passed
through unchanged; the result feeds the wallet constructor. -/
def PrivateKey.fromHex (addrOf : Bytes → List Char) (privateKey : Sum (List Char) Bytes) :
    Except KeyError Wallet :=
  match privateKey with
  | Sum.inl s =>
    let privateKeyHex := if startsWith0x s then s.drop 2 else s
    let privateKeyBuff := hexDecodeNode privateKeyHex
    Wallet.create addrOf privateKeyBuff
  | Sum.inr bs => Wallet.create addrOf bs

/-- Function `toPrivateKeyHex()`: the stored secret hex, `0x`-prepended unless it already
starts with `0x`. -/
def PrivateKey.toPrivateKeyHex (w : Wallet) : List Char :=
  if startsWith0x w.privateKey then w.privateKey else '0' :: 'x' :: w.privateKey

/-- Function `toHex()`: the stored address, `0x`-prepended unless it already starts with
`0x`. -/
def PrivateKey.toHex (w : Wallet) : List Char :=
  if startsWith0x w.address then w.address else '0' :: 'x' :: w.address

/-- Function `toPublicKey()`: `PublicKey.fromHex(this.wallet.privateKey)`; the external
`PublicKey.fromHex` is the abstract `pubOf`. -/
def PrivateKey.toPublicKey {β : Type} (pubOf : List Char → β) (w : Wallet) : β :=
  pubOf w.privateKey

/-- Function `toAddress()`: `Address.fromHex(this.toHex())`; the external `Address.fromHex`
is the abstract `addrFromHex`. -/
def PrivateKey.toAddress {γ : Type} (addrFromHex : List Char → γ) (w : Wallet) : γ :=
  addrFromHex (PrivateKey.toHex w)

/-- Function `toBech32()`: `Address.fromHex(this.toHex()).toBech32()`; the composed
external conversion is the abstract `b32Of`. -/
def PrivateKey.toBech32 (b32Of : List Char → List Char) (w : Wallet) : List Char :=
  b32Of (PrivateKey.toHex w)

/-- Function `sign(messageBytes)`: keccak-hash the message, sign the digest with the
wallet's signing key, split the signature and return the concatenated padded
`r` and `s` bytes. -/
def PrivateKey.sign (keccak : Bytes → Bytes) (ecdsaRS : Bytes → Bytes → Nat × Nat)
    (recov : Bytes → Bytes → Nat) (w : Wallet) (messageBytes : Bytes) : Bytes :=
  let msgHash := keccak messageBytes
  let signature := ethersSignDigest ecdsaRS recov (walletSecret w) msgHash
  let splitSignature := splitSignatureRS signature
  arrayifyHex splitSignature.1 ++ arrayifyHex splitSignature.2

/-- Function `signEcda(messageBytes)`: keccak-hash the message, re-derive the raw secret
bytes from the wallet's hex string, and call the low-level primitive directly. -/
def PrivateKey.signEcda (keccak : Bytes → Bytes) (ecdsaRS : Bytes → Bytes → Nat × Nat)
    (w : Wallet) (messageBytes : Bytes) : Bytes :=
  let msgHash := keccak messageBytes
  let privateKeyHex := strip0x w.privateKey
  let privateKey := hexDecodeNode privateKeyHex
  secpEcdsaSign ecdsaRS msgHash privateKey

/-- Function `signHashed(messageHashedBytes)`: like `sign` but the input is already the
digest. -/
def PrivateKey.signHashed (ecdsaRS : Bytes → Bytes → Nat × Nat)
    (recov : Bytes → Bytes → Nat) (w : Wallet) (messageHashedBytes : Bytes) : Bytes :=
  let signature := ethersSignDigest ecdsaRS recov (walletSecret w) messageHashedBytes
  let splitSignature := splitSignatureRS signature
  arrayifyHex splitSignature.1 ++ arrayifyHex splitSignature.2

/-- Function `signHashedEcda(messageHashedBytes)`: like `signEcda` but the input is
already the digest. -/
def PrivateKey.signHashedEcda (ecdsaRS : Bytes → Bytes → Nat × Nat)
    (w : Wallet) (messageHashedBytes : Bytes) : Bytes :=
  let privateKeyHex := strip0x w.privateKey
  let privateKey := hexDecodeNode privateKeyHex
  secpEcdsaSign ecdsaRS messageHashedBytes privateKey

/-- Function `signTypedData(eip712Data)`: re-derive the secret bytes, call the typed-data
signer, strip the first `0x` from its hex output and decode the bytes (65 of
them: `r‖s‖v`). -/
def PrivateKey.signTypedData {α : Type} (typedRSV : Bytes → α → Nat × Nat × Nat)
    (w : Wallet) (eip712Data : α) : Bytes :=
  let privateKeyHex := strip0x w.privateKey
  let signature := libSignTypedData typedRSV (hexDecodeNode privateKeyHex) eip712Data
  hexDecodeNode (stringReplaceFirst0x signature)

/-- Function `signHashedTypedData(eip712Data)`: textually the same body as
`signHashedEcda` — re-derive the secret bytes and call the low-level primitive
on the pre-hashed payload. -/
def PrivateKey.signHashedTypedData (ecdsaRS : Bytes → Bytes → Nat × Nat)
    (w : Wallet) (eip712Data : Bytes) : Bytes :=
  let privateKeyHex := strip0x w.privateKey
  let privateKey := hexDecodeNode privateKeyHex
  secpEcdsaSign ecdsaRS eip712Data privateKey


/-! Basic facts about the byte and hex encoders -/

theorem bePad_length (n : Nat) : ∀ x : Nat, (bePad n x).length = n := by
  induction n with
  | zero => intro x; rfl
  | succ n ih => intro x; simp [bePad, ih]

theorem bePad_wf (n : Nat) : ∀ x : Nat, BytesWF (bePad n x) := by
  induction n with
  | zero => intro x b hb; simp [bePad] at hb
  | succ n ih =>
    intro x b hb
    simp only [bePad, List.mem_append, List.mem_singleton] at hb
    rcases hb with h | h
    · exact ih (x / 256) b h
    · subst h; exact Nat.mod_lt _ (by norm_num)

theorem bePad_zero (n : Nat) : bePad n 0 = List.replicate n 0 := by
  induction n with
  | zero => rfl
  | succ n ih => simp [bePad, ih, List.replicate_succ']

theorem beBytesMin_wf (x : Nat) : BytesWF (beBytesMin x) := by
  unfold beBytesMin
  split
  · intro b hb
    simp only [List.mem_singleton] at hb
    subst hb; norm_num
  · intro b hb
    exact bePad_wf 32 x b ((List.dropWhile_sublist _).mem hb)

theorem beBytesMin_length_le (x : Nat) : (beBytesMin x).length ≤ 32 := by
  unfold beBytesMin
  split
  · simp
  · calc ((bePad 32 x).dropWhile (fun b => b == 0)).length
        ≤ (bePad 32 x).length := (List.dropWhile_sublist _).length_le
      _ = 32 := bePad_length 32 x

theorem bePad32_eq_pad_min (x : Nat) :
    bePad 32 x = List.replicate (32 - (beBytesMin x).length) 0 ++ beBytesMin x := by
  unfold beBytesMin
  split
  case isTrue h =>
    have hall : ∀ b ∈ bePad 32 x, b = 0 := by
      intro b hb
      have := List.dropWhile_eq_nil_iff.mp h b hb
      simpa using this
    have hrep : bePad 32 x = List.replicate 32 0 :=
      List.eq_replicate_iff.mpr ⟨bePad_length 32 x, hall⟩
    rw [hrep]
    show List.replicate 32 0 = List.replicate 31 0 ++ [0]
    rw [← List.replicate_succ']
  case isFalse h =>
    have hsplit := List.takeWhile_append_dropWhile (fun b => b == 0) (bePad 32 x)
    have hlen : ((bePad 32 x).takeWhile (fun b => b == 0)).length +
        ((bePad 32 x).dropWhile (fun b => b == 0)).length = 32 := by
      have hl := congrArg List.length hsplit
      rw [List.length_append, bePad_length] at hl
      exact hl
    have htw : (bePad 32 x).takeWhile (fun b => b == 0) =
        List.replicate (32 - ((bePad 32 x).dropWhile (fun b => b == 0)).length) 0 := by
      rw [List.eq_replicate_iff]
      refine ⟨by omega, fun b hb => by simpa using List.mem_takeWhile_imp hb⟩
    conv_lhs => rw [← hsplit]
    rw [htw]

theorem hexEncode_cons (b : Nat) (t : Bytes) :
    hexEncode (b :: t) = hexDigit (b / 16 % 16) :: hexDigit (b % 16) :: hexEncode t := rfl

theorem hexEncode_append (xs ys : Bytes) :
    hexEncode (xs ++ ys) = hexEncode xs ++ hexEncode ys := by
  simp [hexEncode]

theorem hexEncode_length (bs : Bytes) : (hexEncode bs).length = 2 * bs.length := by
  induction bs with
  | nil => rfl
  | cons b t ih => simp [hexEncode_cons, ih]; omega

theorem hexDigit_zero : hexDigit 0 = '0' := by decide

theorem hexEncode_replicate_zero (k : Nat) :
    hexEncode (List.replicate k 0) = List.replicate (2 * k) '0' := by
  induction k with
  | zero => rfl
  | succ k ih =>
    have h2 : 2 * (k + 1) = 2 * k + 1 + 1 := by omega
    rw [List.replicate_succ, hexEncode_cons, ih, h2, List.replicate_succ,
      List.replicate_succ]
    simp [hexDigit_zero]

theorem hexVal_hexDigit (m : Nat) (hm : m < 16) : hexVal (hexDigit m) = some m := by
  interval_cases m <;> decide

theorem isLowerHexDigit_hexDigit (m : Nat) (hm : m < 16) :
    isLowerHexDigit (hexDigit m) = true := by
  interval_cases m <;> decide

theorem hexEncode_all_lower (bs : Bytes) : (hexEncode bs).all isLowerHexDigit = true := by
  induction bs with
  | nil => rfl
  | cons b t ih =>
    rw [hexEncode_cons, List.all_cons, List.all_cons,
      isLowerHexDigit_hexDigit _ (Nat.mod_lt _ (by norm_num)),
      isLowerHexDigit_hexDigit _ (Nat.mod_lt _ (by norm_num)), ih]
    rfl

theorem hexDecode_hexEncode (bs : Bytes) (h : BytesWF bs) :
    hexDecodeNode (hexEncode bs) = bs := by
  induction bs with
  | nil => rfl
  | cons b t ih =>
    have hb : b < 256 := h b (by simp)
    have ht : BytesWF t := fun x hx => h x (by simp [hx])
    have hdiv : b / 16 < 16 := (Nat.div_lt_iff_lt_mul (by norm_num)).mpr hb
    rw [hexEncode_cons]
    rw [hexDecodeNode]
    rw [hexVal_hexDigit _ (Nat.mod_lt _ (by norm_num)),
      hexVal_hexDigit _ (Nat.mod_lt _ (by norm_num))]
    simp only
    rw [ih ht]
    congr 1
    rw [Nat.mod_eq_of_lt hdiv]
    omega

theorem BytesWF.append {xs ys : Bytes} (hx : BytesWF xs) (hy : BytesWF ys) :
    BytesWF (xs ++ ys) := by
  intro b hb
  rcases List.mem_append.mp hb with h | h
  exacts [hx b h, hy b h]

theorem hexZeroPad32_eq (body : List Char) :
    hexZeroPad32 ('0' :: 'x' :: body) =
      '0' :: 'x' :: (List.replicate (64 - body.length) '0' ++ body) := rfl

theorem strip0x_cons (t : List Char) : strip0x ('0' :: 'x' :: t) = t := rfl

/-- The central padding agreement: decoding the ethers-side left-padded hex
serialization of a component yields exactly its 32-byte big-endian form. -/
theorem arrayify_pad (r : Nat) :
    arrayifyHex (hexZeroPad32 ('0' :: 'x' :: hexEncode (beBytesMin r))) = bePad 32 r := by
  have hL : (beBytesMin r).length ≤ 32 := beBytesMin_length_le r
  have hbody : List.replicate (64 - (hexEncode (beBytesMin r)).length) '0' ++
      hexEncode (beBytesMin r) = hexEncode (bePad 32 r) := by
    rw [hexEncode_length]
    have h64 : 64 - 2 * (beBytesMin r).length = 2 * (32 - (beBytesMin r).length) := by
      omega
    rw [h64, ← hexEncode_replicate_zero, ← hexEncode_append, ← bePad32_eq_pad_min]
  rw [hexZeroPad32_eq]
  show hexDecodeNode (strip0x ('0' :: 'x' ::
    (List.replicate (64 - (hexEncode (beBytesMin r)).length) '0' ++
      hexEncode (beBytesMin r)))) = bePad 32 r
  rw [strip0x_cons, hbody, hexDecode_hexEncode _ (bePad_wf 32 r)]

/-- Normal form of the `sign` path: the digest is signed and the split `r`, `s`
come back as the two 32-byte big-endian blocks. -/
theorem sign_normal (keccak : Bytes → Bytes) (ecdsaRS : Bytes → Bytes → Nat × Nat)
    (recov : Bytes → Bytes → Nat) (w : Wallet) (messageBytes : Bytes) :
    PrivateKey.sign keccak ecdsaRS recov w messageBytes =
      bePad 32 (ecdsaRS (walletSecret w) (keccak messageBytes)).1 ++
        bePad 32 (ecdsaRS (walletSecret w) (keccak messageBytes)).2 := by
  show arrayifyHex (hexZeroPad32 ('0' :: 'x' ::
      hexEncode (beBytesMin (ecdsaRS (walletSecret w) (keccak messageBytes)).1))) ++
    arrayifyHex (hexZeroPad32 ('0' :: 'x' ::
      hexEncode (beBytesMin (ecdsaRS (walletSecret w) (keccak messageBytes)).2))) = _
  rw [arrayify_pad, arrayify_pad]

/-- Normal form of the `signHashed` path. -/
theorem signHashed_normal (ecdsaRS : Bytes → Bytes → Nat × Nat)
    (recov : Bytes → Bytes → Nat) (w : Wallet) (messageHashedBytes : Bytes) :
    PrivateKey.signHashed ecdsaRS recov w messageHashedBytes =
      bePad 32 (ecdsaRS (walletSecret w) messageHashedBytes).1 ++
        bePad 32 (ecdsaRS (walletSecret w) messageHashedBytes).2 := by
  show arrayifyHex (hexZeroPad32 ('0' :: 'x' ::
      hexEncode (beBytesMin (ecdsaRS (walletSecret w) messageHashedBytes).1))) ++
    arrayifyHex (hexZeroPad32 ('0' :: 'x' ::
      hexEncode (beBytesMin (ecdsaRS (walletSecret w) messageHashedBytes).2))) = _
  rw [arrayify_pad, arrayify_pad]

/-! State-passing forms of the signing methods

The TypeScript method bodies read `this.wallet` and contain no assignment to
it, so in the explicit state-passing translation every call returns the input
wallet unchanged as its post-state. -/

/-- Function `sign` with its (unchanged) post-state. -/
def PrivateKey.signRun (keccak : Bytes → Bytes) (ecdsaRS : Bytes → Bytes → Nat × Nat)
    (recov : Bytes → Bytes → Nat) (w : Wallet) (messageBytes : Bytes) : Bytes × Wallet :=
  (PrivateKey.sign keccak ecdsaRS recov w messageBytes, w)

/-- Function `signEcda` with its (unchanged) post-state. -/
def PrivateKey.signEcdaRun (keccak : Bytes → Bytes) (ecdsaRS : Bytes → Bytes → Nat × Nat)
    (w : Wallet) (messageBytes : Bytes) : Bytes × Wallet :=
  (PrivateKey.signEcda keccak ecdsaRS w messageBytes, w)

/-- Function `signHashed` with its (unchanged) post-state. -/
def PrivateKey.signHashedRun (ecdsaRS : Bytes → Bytes → Nat × Nat)
    (recov : Bytes → Bytes → Nat) (w : Wallet) (messageHashedBytes : Bytes) : Bytes × Wallet :=
  (PrivateKey.signHashed ecdsaRS recov w messageHashedBytes, w)

/-- Function `signHashedEcda` with its (unchanged) post-state. -/
def PrivateKey.signHashedEcdaRun (ecdsaRS : Bytes → Bytes → Nat × Nat)
    (w : Wallet) (messageHashedBytes : Bytes) : Bytes × Wallet :=
  (PrivateKey.signHashedEcda ecdsaRS w messageHashedBytes, w)

/-- Function `signTypedData` with its (unchanged) post-state. -/
def PrivateKey.signTypedDataRun {α : Type} (typedRSV : Bytes → α → Nat × Nat × Nat)
    (w : Wallet) (eip712Data : α) : Bytes × Wallet :=
  (PrivateKey.signTypedData typedRSV w eip712Data, w)

/-- Function `signHashedTypedData` with its (unchanged) post-state. -/
def PrivateKey.signHashedTypedDataRun (ecdsaRS : Bytes → Bytes → Nat × Nat)
    (w : Wallet) (eip712Data : Bytes) : Bytes × Wallet :=
  (PrivateKey.signHashedTypedData ecdsaRS w eip712Data, w)

/-! Concrete instances used to exercise theorems with hypotheses -/

/-- Trivial address derivation for concrete instantiations. -/
def addrOfNull : Bytes → List Char := fun _ => []

/-- Trivial hash for concrete instantiations. -/
def keccakNull : Bytes → Bytes := fun _ => List.replicate 32 0

/-- Trivial signing primitive for concrete instantiations. -/
def rsNull : Bytes → Bytes → Nat × Nat := fun _ _ => (1, 1)

/-- Trivial recovery parity for concrete instantiations. -/
def recovNull : Bytes → Bytes → Nat := fun _ _ => 0

/-- Trivial typed-data signing primitive for concrete instantiations. -/
def typedNull : Bytes → Nat → Nat × Nat × Nat := fun _ _ => (1, 1, 27)

/-- Trivial BIP39 validity check (true exactly for 12-character phrases). -/
def validTwelve : List Char → Bool := fun s => s.length == 12

/-- Trivial BIP32 derivation for concrete instantiations. -/
def deriveNull : List Char → List Char → Bytes := fun _ _ => List.replicate 32 1

/-- A concrete wallet holding the secret `0x0101...01`. -/
def wOne : Wallet := ⟨'0' :: 'x' :: hexEncode (List.replicate 32 1), []⟩

/-- Specification-side description of `sign` (written from the spec's words,
for the refinement comparison of C5): keccak-hash the message, sign the digest
with the canonical deterministic ECDSA routine over the key's secret scalar,
and output the signature's `r` and `s`, each left-padded to exactly 32 bytes
(64 bytes total); no recovery information appears. -/
def signPerSpec (keccak : Bytes → Bytes) (ecdsaRS : Bytes → Bytes → Nat × Nat)
    (w : Wallet) (messageBytes : Bytes) : Bytes :=
  bePad 32 (ecdsaRS (walletSecret w) (keccak messageBytes)).1 ++
    bePad 32 (ecdsaRS (walletSecret w) (keccak messageBytes)).2

/-! The claims -/

/-- C1: For every PrivateKey and every fixed digest, the r‖s bytes returned by
`signHashed` are identical to the 64 bytes returned by `signHashedEcda`, and
likewise `sign(msg)` agrees with `signEcda(msg)` for the same raw message, even
though the two families go through different internal call paths (ethers
signature splitting and hex padding versus the direct compact serialization of
the low-level primitive). -/
theorem sign_paths_agree (ecdsaRS : Bytes → Bytes → Nat × Nat)
    (recov : Bytes → Bytes → Nat) (keccak : Bytes → Bytes) (w : Wallet)
    (digest messageBytes : Bytes) :
    PrivateKey.signHashed ecdsaRS recov w digest =
      PrivateKey.signHashedEcda ecdsaRS w digest ∧
    PrivateKey.sign keccak ecdsaRS recov w messageBytes =
      PrivateKey.signEcda keccak ecdsaRS w messageBytes := by
  constructor
  · rw [signHashed_normal]; rfl
  · rw [sign_normal]; rfl

/-- C5: `sign(msg)` keccak-hashes the message, signs the digest with the
canonical deterministic ECDSA routine over the key's secret, and returns the
concatenation of `r` and `s`, each left-padded to exactly 32 bytes; the
recovery information (`recov`) is universally quantified on the left and absent
on the right, so it is computed internally but discarded. -/
theorem sign_refines_spec (keccak : Bytes → Bytes) (ecdsaRS : Bytes → Bytes → Nat × Nat)
    (recov : Bytes → Bytes → Nat) (w : Wallet) (messageBytes : Bytes) :
    PrivateKey.sign keccak ecdsaRS recov w messageBytes =
      signPerSpec keccak ecdsaRS w messageBytes := by
  rw [sign_normal]; rfl

/-- C10: `signHashedTypedData` is extensionally equal to `signHashedEcda`: the
two method bodies are the same computation. -/
theorem signHashedTypedData_eq_signHashedEcda (ecdsaRS : Bytes → Bytes → Nat × Nat)
    (w : Wallet) (eip712Data : Bytes) :
    PrivateKey.signHashedTypedData ecdsaRS w eip712Data =
      PrivateKey.signHashedEcda ecdsaRS w eip712Data := rfl

/-- C2: `signTypedData` returns 65 bytes (r‖s plus the trailing recovery byte)
while `sign`, `signEcda`, `signHashed`, `signHashedEcda` and
`signHashedTypedData` return exactly 64 bytes with no recovery byte. -/
theorem signature_output_lengths {α : Type} (keccak : Bytes → Bytes)
    (ecdsaRS : Bytes → Bytes → Nat × Nat) (recov : Bytes → Bytes → Nat)
    (typedRSV : Bytes → α → Nat × Nat × Nat) (w : Wallet) (msg digest : Bytes) (data : α) :
    (PrivateKey.signTypedData typedRSV w data).length = 65 ∧
    (PrivateKey.sign keccak ecdsaRS recov w msg).length = 64 ∧
    (PrivateKey.signEcda keccak ecdsaRS w msg).length = 64 ∧
    (PrivateKey.signHashed ecdsaRS recov w digest).length = 64 ∧
    (PrivateKey.signHashedEcda ecdsaRS w digest).length = 64 ∧
    (PrivateKey.signHashedTypedData ecdsaRS w digest).length = 64 := by
  refine ⟨?_, ?_, ?_, ?_, ?_, ?_⟩
  · have e : PrivateKey.signTypedData typedRSV w data =
        hexDecodeNode (hexEncode
          (bePad 32 (typedRSV (hexDecodeNode (strip0x w.privateKey)) data).1 ++
            bePad 32 (typedRSV (hexDecodeNode (strip0x w.privateKey)) data).2.1 ++
            bePad 1 (typedRSV (hexDecodeNode (strip0x w.privateKey)) data).2.2)) := rfl
    rw [e, hexDecode_hexEncode _
      (BytesWF.append (BytesWF.append (bePad_wf 32 _) (bePad_wf 32 _)) (bePad_wf 1 _))]
    simp [List.length_append, bePad_length]
  · rw [sign_normal]; simp [List.length_append, bePad_length]
  · show (bePad 32 _ ++ bePad 32 _).length = 64
    simp [List.length_append, bePad_length]
  · rw [signHashed_normal]; simp [List.length_append, bePad_length]
  · show (bePad 32 _ ++ bePad 32 _).length = 64
    simp [List.length_append, bePad_length]
  · show (bePad 32 _ ++ bePad 32 _).length = 64
    simp [List.length_append, bePad_length]

/-- C9: no signing operation mutates the key: in the state-passing translation
the post-state wallet is the input wallet, and hence `toPrivateKeyHex`,
`toHex`, `toPublicKey` and `toBech32` observe the same values before and after
any signing call. -/
theorem signing_preserves_state {α β : Type} (keccak : Bytes → Bytes)
    (ecdsaRS : Bytes → Bytes → Nat × Nat) (recov : Bytes → Bytes → Nat)
    (typedRSV : Bytes → α → Nat × Nat × Nat) (pubOf : List Char → β)
    (b32Of : List Char → List Char) (w : Wallet) (msg digest : Bytes) (data : α) :
    (PrivateKey.signRun keccak ecdsaRS recov w msg).2 = w ∧
    (PrivateKey.signEcdaRun keccak ecdsaRS w msg).2 = w ∧
    (PrivateKey.signHashedRun ecdsaRS recov w digest).2 = w ∧
    (PrivateKey.signHashedEcdaRun ecdsaRS w digest).2 = w ∧
    (PrivateKey.signTypedDataRun typedRSV w data).2 = w ∧
    (PrivateKey.signHashedTypedDataRun ecdsaRS w digest).2 = w ∧
    PrivateKey.toPrivateKeyHex (PrivateKey.signRun keccak ecdsaRS recov w msg).2 =
      PrivateKey.toPrivateKeyHex w ∧
    PrivateKey.toHex (PrivateKey.signRun keccak ecdsaRS recov w msg).2 =
      PrivateKey.toHex w ∧
    PrivateKey.toPublicKey pubOf (PrivateKey.signRun keccak ecdsaRS recov w msg).2 =
      PrivateKey.toPublicKey pubOf w ∧
    PrivateKey.toBech32 b32Of (PrivateKey.signRun keccak ecdsaRS recov w msg).2 =
      PrivateKey.toBech32 b32Of w :=
  ⟨rfl, rfl, rfl, rfl, rfl, rfl, rfl, rfl, rfl, rfl⟩

/-- C4 (code bug): `fromHex` silently truncates a malformed secret instead of
failing — the 65-hex-character string `0x` ‖ `1`⁶⁵ (32.5 bytes of data) is
accepted: the Node hex decoder drops the trailing lone character and the
resulting 32-byte secret `0x1111...11` passes validation, so construction
succeeds on input that the claim requires to be rejected. -/
theorem fromHex_accepts_truncated_secret :
    PrivateKey.fromHex addrOfNull (Sum.inl ('0' :: 'x' :: List.replicate 65 '1')) =
      Except.ok ⟨'0' :: 'x' :: hexEncode (List.replicate 32 17), []⟩ := by rfl

/-- C3: every signing operation is deterministic — it is a function of the
stored key and the input alone, so two calls on wallets holding the same
secret (in particular, two calls on the same wallet) return byte-identical
output. -/
theorem signing_deterministic {α : Type} (keccak : Bytes → Bytes)
    (ecdsaRS : Bytes → Bytes → Nat × Nat) (recov : Bytes → Bytes → Nat)
    (typedRSV : Bytes → α → Nat × Nat × Nat) (w₁ w₂ : Wallet)
    (h : w₁.privateKey = w₂.privateKey) (msg digest : Bytes) (data : α) :
    PrivateKey.sign keccak ecdsaRS recov w₁ msg =
      PrivateKey.sign keccak ecdsaRS recov w₂ msg ∧
    PrivateKey.signEcda keccak ecdsaRS w₁ msg =
      PrivateKey.signEcda keccak ecdsaRS w₂ msg ∧
    PrivateKey.signHashed ecdsaRS recov w₁ digest =
      PrivateKey.signHashed ecdsaRS recov w₂ digest ∧
    PrivateKey.signHashedEcda ecdsaRS w₁ digest =
      PrivateKey.signHashedEcda ecdsaRS w₂ digest ∧
    PrivateKey.signTypedData typedRSV w₁ data =
      PrivateKey.signTypedData typedRSV w₂ data ∧
    PrivateKey.signHashedTypedData ecdsaRS w₁ digest =
      PrivateKey.signHashedTypedData ecdsaRS w₂ digest := by
  refine ⟨?_, ?_, ?_, ?_, ?_, ?_⟩ <;>
    simp only [PrivateKey.sign, PrivateKey.signEcda, PrivateKey.signHashed,
      PrivateKey.signHashedEcda, PrivateKey.signTypedData,
      PrivateKey.signHashedTypedData, walletSecret, h]

/-- A second wallet with the same stored secret as `wOne` but a different
address field. -/
def wOneAddr : Wallet := ⟨'0' :: 'x' :: hexEncode (List.replicate 32 1), "0x00".toList⟩

/-- Witness for C3 at a concrete key, message, digest and typed payload. -/
theorem signing_deterministic_witness :
    PrivateKey.sign keccakNull rsNull recovNull wOne [1, 2] =
      PrivateKey.sign keccakNull rsNull recovNull wOneAddr [1, 2] ∧
    PrivateKey.signEcda keccakNull rsNull wOne [1, 2] =
      PrivateKey.signEcda keccakNull rsNull wOneAddr [1, 2] ∧
    PrivateKey.signHashed rsNull recovNull wOne (List.replicate 32 2) =
      PrivateKey.signHashed rsNull recovNull wOneAddr (List.replicate 32 2) ∧
    PrivateKey.signHashedEcda rsNull wOne (List.replicate 32 2) =
      PrivateKey.signHashedEcda rsNull wOneAddr (List.replicate 32 2) ∧
    PrivateKey.signTypedData typedNull wOne 7 =
      PrivateKey.signTypedData typedNull wOneAddr 7 ∧
    PrivateKey.signHashedTypedData rsNull wOne (List.replicate 32 2) =
      PrivateKey.signHashedTypedData rsNull wOneAddr (List.replicate 32 2) :=
  signing_deterministic keccakNull rsNull recovNull typedNull wOne wOneAddr rfl
    [1, 2] (List.replicate 32 2) 7

/-- C6: a key exported with `toPrivateKeyHex` and re-imported with `fromHex`
round-trips to the identical wallet (same stored secret, hence same derived
public key and the same address). -/
theorem privateKeyHex_roundTrip (addrOf : Bytes → List Char) (bs : Bytes)
    (hWF : BytesWF bs) (w : Wallet) (hw : Wallet.create addrOf bs = Except.ok w) :
    PrivateKey.fromHex addrOf (Sum.inl (PrivateKey.toPrivateKeyHex w)) = Except.ok w := by
  unfold Wallet.create at hw
  by_cases hlen : bs.length ≠ 32
  · rw [if_pos hlen] at hw; exact absurd hw (by simp)
  rw [if_neg hlen] at hw
  by_cases hval : natOfBytes bs = 0 ∨ secp256k1Order ≤ natOfBytes bs
  · rw [if_pos hval] at hw; exact absurd hw (by simp)
  rw [if_neg hval] at hw
  have hw2 : (⟨'0' :: 'x' :: hexEncode bs, addrOf bs⟩ : Wallet) = w := by
    simpa using hw
  subst hw2
  have h1 : PrivateKey.toPrivateKeyHex ⟨'0' :: 'x' :: hexEncode bs, addrOf bs⟩ =
      '0' :: 'x' :: hexEncode bs := rfl
  rw [h1]
  show Wallet.create addrOf (hexDecodeNode (strip0x ('0' :: 'x' :: hexEncode bs))) = _
  rw [strip0x_cons, hexDecode_hexEncode bs hWF]
  unfold Wallet.create
  rw [if_neg hlen, if_neg hval]

/-- Witness for C6 at the secret `0x0101...01`. -/
theorem privateKeyHex_roundTrip_witness :
    PrivateKey.fromHex addrOfNull (Sum.inl (PrivateKey.toPrivateKeyHex wOne)) =
      Except.ok wOne :=
  privateKeyHex_roundTrip addrOfNull (List.replicate 32 1) (by decide) wOne (by rfl)

/-- Reachable wallet states: the stored secret is the `0x`-prefixed lowercase
hex of some 32-byte scalar (as the ethers constructor stores it), and the
stored address is `0x` followed by 40 hex characters of either case (ethers
stores addresses EIP-55 checksummed, which mixes the case). -/
def Wallet.WF (w : Wallet) : Prop :=
  (∃ bs : Bytes, BytesWF bs ∧ bs.length = 32 ∧ w.privateKey = '0' :: 'x' :: hexEncode bs) ∧
  startsWith0x w.address = true ∧ w.address.length = 42 ∧
  (w.address.drop 2).all isHexDigitAnyCase = true

theorem all_lower_imp_anyCase (s : List Char) (h : s.all isLowerHexDigit = true) :
    s.all isHexDigitAnyCase = true := by
  rw [List.all_eq_true] at h ⊢
  intro c hc
  simp [isHexDigitAnyCase, h c hc]

theorem startsWith0x_false_of_all_hex (s : List Char)
    (h : s.all isHexDigitAnyCase = true) : startsWith0x s = false := by
  cases s with
  | nil => rfl
  | cons c1 t =>
    cases t with
    | nil => rfl
    | cons c2 t2 =>
      show (c1 == '0' && c2 == 'x') = false
      have h2 : isHexDigitAnyCase c2 = true := by
        rw [List.all_eq_true] at h
        exact h c2 (by simp)
      by_cases hx : c2 = 'x'
      · subst hx; exact absurd h2 (by decide)
      · have he : (c2 == 'x') = false := by
          rw [beq_eq_false_iff_ne]; exact hx
        rw [he, Bool.and_false]

/-- A reachable wallet whose stored address carries uppercase (checksummed)
hex characters. -/
def walletMixedCase : Wallet :=
  ⟨'0' :: 'x' :: hexEncode (List.replicate 32 1),
   "0xAB00000000000000000000000000000000000000".toList⟩

/-- C7 counterexample: `toHex` performs no lowercasing, so on a reachable
wallet whose stored (EIP-55 checksummed) address contains uppercase hex
characters, the output of `toHex` is not a lowercase hex string — refuting the
claim that `toHex()` always returns a lowercase hex string. -/
theorem toHex_not_lowercase_cex :
    Wallet.WF walletMixedCase ∧
    isLowerHexString (PrivateKey.toHex walletMixedCase) = false :=
  ⟨⟨⟨List.replicate 32 1, by decide, by decide, rfl⟩, by decide, by decide, by decide⟩,
   by decide⟩

/-- C7 (amended): `toPrivateKeyHex` and `toHex` follow the single-prefix
normalization rule — the stored form is returned unchanged when it already
carries the `0x` prefix, the prefix is prepended otherwise, and the output
carries the prefix exactly once; `toPrivateKeyHex` is a lowercase hex string
(the wallet stores the secret in lowercase), while `toHex` returns the stored
address with its case preserved (no lowercasing is applied). -/
theorem hex_export_normalization (w : Wallet) (hWF : Wallet.WF w) :
    isLowerHexString (PrivateKey.toPrivateKeyHex w) = true ∧
    PrivateKey.toPrivateKeyHex w = w.privateKey ∧
    startsWith0x (PrivateKey.toPrivateKeyHex w) = true ∧
    startsWith0x ((PrivateKey.toPrivateKeyHex w).drop 2) = false ∧
    PrivateKey.toHex w = w.address ∧
    startsWith0x (PrivateKey.toHex w) = true ∧
    startsWith0x ((PrivateKey.toHex w).drop 2) = false := by
  obtain ⟨⟨bs, hbs, hlen, hpk⟩, ha1, ha2, ha3⟩ := hWF
  have hpk0 : startsWith0x w.privateKey = true := by rw [hpk]; rfl
  have hpkeq : PrivateKey.toPrivateKeyHex w = w.privateKey := by
    simp [PrivateKey.toPrivateKeyHex, hpk0]
  have hhexeq : PrivateKey.toHex w = w.address := by
    simp [PrivateKey.toHex, ha1]
  refine ⟨?_, hpkeq, ?_, ?_, hhexeq, ?_, ?_⟩
  · rw [hpkeq, hpk]
    show (startsWith0x ('0' :: 'x' :: hexEncode bs) &&
      (('0' :: 'x' :: hexEncode bs).drop 2).all isLowerHexDigit) = true
    have hdrop : ('0' :: 'x' :: hexEncode bs).drop 2 = hexEncode bs := rfl
    rw [hdrop, hexEncode_all_lower]
    rfl
  · rw [hpkeq]; exact hpk0
  · rw [hpkeq, hpk]
    show startsWith0x (hexEncode bs) = false
    exact startsWith0x_false_of_all_hex _ (all_lower_imp_anyCase _ (hexEncode_all_lower bs))
  · rw [hhexeq]; exact ha1
  · rw [hhexeq]; exact startsWith0x_false_of_all_hex _ ha3

/-- A reachable wallet whose stored address happens to be all lowercase. -/
def walletLowerCase : Wallet :=
  ⟨'0' :: 'x' :: hexEncode (List.replicate 32 1),
   "0xab00000000000000000000000000000000000000".toList⟩

/-- Witness for the amended C7 at a concrete wallet. -/
theorem hex_export_normalization_witness :
    isLowerHexString (PrivateKey.toPrivateKeyHex walletLowerCase) = true ∧
    PrivateKey.toPrivateKeyHex walletLowerCase = walletLowerCase.privateKey ∧
    startsWith0x (PrivateKey.toPrivateKeyHex walletLowerCase) = true ∧
    startsWith0x ((PrivateKey.toPrivateKeyHex walletLowerCase).drop 2) = false ∧
    PrivateKey.toHex walletLowerCase = walletLowerCase.address ∧
    startsWith0x (PrivateKey.toHex walletLowerCase) = true ∧
    startsWith0x ((PrivateKey.toHex walletLowerCase).drop 2) = false :=
  hex_export_normalization walletLowerCase
    ⟨⟨List.replicate 32 1, by decide, by decide, rfl⟩, by decide, by decide, by decide⟩

/-- C8: `fromMnemonic` validates the phrase first — an invalid phrase fails
with `InvalidMnemonic`, and the result is then independent of the derivation
function (no key material is derived); a valid phrase leads to BIP32
derivation along the (defaulted) path and key construction from the derived
scalar. -/
theorem fromMnemonic_validates_first (addrOf : Bytes → List Char)
    (validBip39 : List Char → Bool) (d₁ d₂ : List Char → List Char → Bytes)
    (words : List Char) (path : Option (List Char)) :
    (validBip39 words = false →
      PrivateKey.fromMnemonic addrOf validBip39 d₁ words path =
        Except.error KeyError.InvalidMnemonic ∧
      PrivateKey.fromMnemonic addrOf validBip39 d₁ words path =
        PrivateKey.fromMnemonic addrOf validBip39 d₂ words path) ∧
    (validBip39 words = true →
      PrivateKey.fromMnemonic addrOf validBip39 d₁ words path =
        Wallet.create addrOf (d₁ words (path.getD DEFAULT_DERIVATION_PATH))) := by
  unfold PrivateKey.fromMnemonic Wallet.fromMnemonic
  constructor
  · intro h; rw [h]; simp
  · intro h; rw [h]; simp

/-- Witness for C8: a failing phrase and a passing phrase, concretely. -/
theorem fromMnemonic_validates_first_witness :
    PrivateKey.fromMnemonic addrOfNull validTwelve deriveNull [] none =
      Except.error KeyError.InvalidMnemonic ∧
    PrivateKey.fromMnemonic addrOfNull validTwelve deriveNull
        (List.replicate 12 'a') none =
      Wallet.create addrOfNull (deriveNull (List.replicate 12 'a')
        DEFAULT_DERIVATION_PATH) :=
  ⟨((fromMnemonic_validates_first addrOfNull validTwelve deriveNull deriveNull
      [] none).1 (by decide)).1,
   (fromMnemonic_validates_first addrOfNull validTwelve deriveNull deriveNull
      (List.replicate 12 'a') none).2 (by decide)⟩
